import Mathlib

/-
Verification of the `go-requests` fluent HTTP request builder
(`request.go`, package `requests`).

The builder accumulates headers, query parameters, an optional JSON body
value, raw body bytes and a decode target, then issues a verb call that
constructs an outgoing request (URL reference resolution, query
re-encoding, header application) and sends it through the supplied
transport.

Embedding conventions:
- Go byte strings are modelled as Lean `String`s (the repository and all
  claims only exercise ASCII data, where the two coincide byte-for-byte);
  request body bytes are `List UInt8`.
- Go maps (`map[string]string`, `url.Values`, `http.Header`) are modelled
  as association lists with unique keys; `url.Values.Encode` sorts its
  keys exactly as Go does, so key order never matters where Go's map
  iteration order is unspecified.
- The external collaborators called by the repository (`net/url` parsing,
  reference resolution and query encoding, `net/http` request
  construction, `net/textproto` canonical header keys) are translated
  from the Go standard library implementations they name; simplifications
  (user-info, RawPath/RawFragment, IPv6/port validation, contexts) are
  noted on each definition.
- `json.Marshal`, the transport and the response decoder are
  caller-supplied in Go terms, so they are parameters of the verb
  functions; verb calls return their result, the updated builder state
  and a trace of `marshal` / `send` events so that claims about "never
  serializes" / "never sends" are statable.
-/

namespace Requests

/-! ## Character helpers (Go net/url ishex / unhex) -/

/-- Go net/url `ishex`: is `c` an ASCII hex digit. -/
def ishex (c : Char) : Bool :=
  (Nat.ble 48 c.toNat && Nat.ble c.toNat 57) ||
  (Nat.ble 97 c.toNat && Nat.ble c.toNat 102) ||
  (Nat.ble 65 c.toNat && Nat.ble c.toNat 70)

/-- Go net/url `unhex`: value of an ASCII hex digit (0 on non-hex input,
which Go never reaches because `ishex` is checked first). -/
def unhex (c : Char) : Nat :=
  if Nat.ble 48 c.toNat && Nat.ble c.toNat 57 then c.toNat - 48
  else if Nat.ble 97 c.toNat && Nat.ble c.toNat 102 then c.toNat - 87
  else if Nat.ble 65 c.toNat && Nat.ble c.toNat 70 then c.toNat - 55
  else 0

/-- Upper-case hex digit for a nibble, as Go's `upperhex[n]`. -/
def hexDigitUpper (n : Nat) : Char :=
  if Nat.ble n 9 then Char.ofNat (48 + n) else Char.ofNat (55 + n)

/-! ## Escaping modes (Go net/url `encoding`) -/

/-- The Go net/url escaping modes used by this repository's call graph. -/
inductive EncMode where
  | path
  | host
  | queryComponent
  | fragment
deriving DecidableEq

/-- Characters Go's `shouldEscape` leaves unescaped in host mode
(on top of the unreserved set). -/
def hostExtraChars : List Char :=
  ['!', '$', '&', '\'', '(', ')', '*', '+', ',', ';', '=', ':', '[', ']', '<', '>', '"']

/-- Sub-delimiter handling shared by every mode in Go's `shouldEscape`
(the switch over `$ & + , / : ; = ? @` and the fragment extras). -/
def shouldEscapeTail (c : Char) (mode : EncMode) : Bool :=
  if c == '-' || c == '_' || c == '.' || c == '~' then false
  else if c == '$' || c == '&' || c == '+' || c == ',' || c == '/' ||
          c == ':' || c == ';' || c == '=' || c == '?' || c == '@' then
    match mode with
    | EncMode.path => c == '?'
    | EncMode.queryComponent => true
    | EncMode.fragment => false
    | EncMode.host => true
  else if c == '!' || c == '(' || c == ')' || c == '*' then
    match mode with
    | EncMode.fragment => false
    | _ => true
  else true

/-- Go net/url `shouldEscape` restricted to the four modes above. -/
def shouldEscape (c : Char) (mode : EncMode) : Bool :=
  if c.isAlphanum then false
  else if mode == EncMode.host && hostExtraChars.contains c then false
  else shouldEscapeTail c mode

/-- Go net/url `escape` on a character list: space becomes `+` in query
components, escapable bytes become `%XX` with upper-case hex. -/
def escapeChars (mode : EncMode) : List Char → List Char
  | [] => []
  | c :: cs =>
    if c == ' ' && mode == EncMode.queryComponent then '+' :: escapeChars mode cs
    else if shouldEscape c mode then
      '%' :: hexDigitUpper (c.toNat / 16) :: hexDigitUpper (c.toNat % 16) :: escapeChars mode cs
    else c :: escapeChars mode cs

/-- Go net/url `escape`. -/
def escapeWith (mode : EncMode) (s : String) : String :=
  (escapeChars mode s.toList).asString

/-- Go net/url `QueryEscape`. -/
def queryEscape (s : String) : String := escapeWith EncMode.queryComponent s

/-- Go net/url `unescape` on a character list: `%XX` must be followed by
two hex digits, `+` decodes to space only in query components, and host
mode rejects characters that would need escaping (as Go does). -/
def unescapeChars (mode : EncMode) : List Char → Except String (List Char)
  | [] => Except.ok []
  | '%' :: a :: b :: rest =>
    if ishex a && ishex b then
      if mode == EncMode.host && Nat.blt (unhex a) 8 && !(a == '2' && b == '5') then
        Except.error "invalid URL escape"
      else
        match unescapeChars mode rest with
        | Except.error e => Except.error e
        | Except.ok t => Except.ok (Char.ofNat (16 * unhex a + unhex b) :: t)
    else Except.error "invalid URL escape"
  | ['%'] => Except.error "invalid URL escape"
  | ['%', _] => Except.error "invalid URL escape"
  | '+' :: rest =>
    match unescapeChars mode rest with
    | Except.error e => Except.error e
    | Except.ok t => Except.ok ((if mode == EncMode.queryComponent then ' ' else '+') :: t)
  | c :: rest =>
    if mode == EncMode.host && Nat.blt c.toNat 128 && shouldEscape c mode then
      Except.error "invalid character in host name"
    else
      match unescapeChars mode rest with
      | Except.error e => Except.error e
      | Except.ok t => Except.ok (c :: t)

/-- Go net/url `unescape` on strings. -/
def unescapeStr (mode : EncMode) (s : String) : Except String String :=
  match unescapeChars mode s.toList with
  | Except.error e => Except.error e
  | Except.ok t => Except.ok t.asString

/-- Go net/url `QueryUnescape`. -/
def queryUnescape (s : String) : Except String String :=
  unescapeStr EncMode.queryComponent s

/-! ## Association lists with unique keys (model of Go maps) -/

/-- Lookup in a Go map modelled as an association list. -/
def getKeyO {α : Type} : List (String × α) → String → Option α
  | [], _ => none
  | (k', a) :: t, k => if k' = k then some a else getKeyO t k

/-- Map update `m[k] = a`: replace in place, append when absent. -/
def setKeyA {α : Type} : List (String × α) → String → α → List (String × α)
  | [], k, a => [(k, a)]
  | (k', a') :: t, k, a => if k' = k then (k, a) :: t else (k', a') :: setKeyA t k a

/-! ## url.Values -/

/-- Go `url.Values`: a map from key to a list of string values. -/
abbrev Values := List (String × List String)

/-- Value lookup: a Go map lookup of an absent key yields the nil slice. -/
def valuesGet (v : Values) (k : String) : List String :=
  (getKeyO v k).getD []

/-- Go `url.Values.Add`: `v[key] = append(v[key], value)`. -/
def valuesAdd (v : Values) (k val : String) : Values :=
  setKeyA v k (valuesGet v k ++ [val])

/-- Byte-lexicographic string order, as Go's `sort.Strings` uses
(UTF-8 byte order coincides with code-point order). -/
def charListLe : List Char → List Char → Bool
  | [], _ => true
  | _ :: _, [] => false
  | a :: as, b :: bs =>
    if a.toNat == b.toNat then charListLe as bs
    else Nat.blt a.toNat b.toNat

/-- String comparison used when sorting the keys of `url.Values.Encode`. -/
def strLe (a b : String) : Bool := charListLe a.toList b.toList

/-- Insertion into a sorted string list. -/
def insertSorted (x : String) : List String → List String
  | [] => [x]
  | y :: ys => if strLe x y then x :: y :: ys else y :: insertSorted x ys

/-- Sorting of the Values keys, as Go's `sort.Strings` (keys are unique,
so stability is irrelevant). -/
def sortStrings : List String → List String
  | [] => []
  | x :: xs => insertSorted x (sortStrings xs)

/-- Go `url.Values.Encode`: sort the keys, then emit
`escape(k)=escape(v)` pairs joined by `&`, values in stored order. -/
def valuesEncode (v : Values) : String :=
  let keys := sortStrings (v.map Prod.fst)
  let parts :=
    (keys.map (fun k => (valuesGet v k).map (fun val => queryEscape k ++ "=" ++ queryEscape val))).flatten
  String.intercalate "&" parts

/-! ## URLs (Go net/url) -/

/-- Go `url.URL`, restricted to the fields the repository's call graph can
reach: user-info, `RawPath` and `RawFragment` (escape-preservation hints
only) and `OmitHost` are not modelled. `opq` is Go's `Opaque`. -/
structure URL where
  scheme : String := ""
  opq : String := ""
  host : String := ""
  path : String := ""
  forceQuery : Bool := false
  rawQuery : String := ""
  fragment : String := ""
deriving DecidableEq

/-- Split at the first occurrence of `c`, dropping it, as Go's
`split(s, c, true)`: when `c` is absent the second component is empty. -/
def cutAtChar (c : Char) : List Char → List Char × List Char
  | [] => ([], [])
  | x :: xs =>
    if x == c then ([], xs)
    else
      let p := cutAtChar c xs
      (x :: p.1, p.2)

/-- Split at the first `/`, keeping it on the right, as Go's
`split(s, '/', false)` used for the authority. -/
def spanUntilSlash : List Char → List Char × List Char
  | [] => ([], [])
  | x :: xs =>
    if x == '/' then ([], x :: xs)
    else
      let p := spanUntilSlash xs
      (x :: p.1, p.2)

/-- Does the character occur in the list. -/
def containsChar (c : Char) (s : List Char) : Bool :=
  s.any (fun x => x == c)

/-- Prefix test on character lists. -/
def isPrefixL : List Char → List Char → Bool
  | [], _ => true
  | _ :: _, [] => false
  | a :: as, b :: bs => a == b && isPrefixL as bs

/-- Go `strings.HasPrefix` on the modelled strings. -/
def strHasPre (s p : String) : Bool := isPrefixL p.toList s.toList

/-- Go `strings.HasSuffix` with a one-character suffix. -/
def strEndsWithChar (s : String) (c : Char) : Bool := s.toList.getLast? == some c

/-- Go `strings.ToLower` (ASCII case mapping, which is all the scheme
grammar admits). -/
def strToLower (s : String) : String := (s.toList.map Char.toLower).asString

/-- Index of the last occurrence of `c`, if any. -/
def lastIndexCharAux (c : Char) : List Char → Nat → Option Nat → Option Nat
  | [], _, best => best
  | x :: xs, i, best => lastIndexCharAux c xs (i + 1) (if x == c then some i else best)

/-- Index of the last occurrence of `c` in the list, if any
(Go's `strings.LastIndexByte`, with `none` for -1). -/
def lastIndexChar (c : Char) (s : List Char) : Option Nat :=
  lastIndexCharAux c s 0 none

/-- Go net/url `getScheme` scanning loop: the scheme must start with a
letter, continue with letters, digits, `+`, `-` or `.`, and end at `:`;
anything else means the input has no scheme. -/
def getSchemeAux (orig : List Char) (acc : List Char) : List Char → Except String (List Char × List Char)
  | [] => Except.ok ([], orig)
  | c :: cs =>
    if c.isAlpha then getSchemeAux orig (acc ++ [c]) cs
    else if c.isDigit || c == '+' || c == '-' || c == '.' then
      if acc.isEmpty then Except.ok ([], orig) else getSchemeAux orig (acc ++ [c]) cs
    else if c == ':' then
      if acc.isEmpty then Except.error "missing protocol scheme"
      else Except.ok (acc, cs)
    else Except.ok ([], orig)

/-- Go net/url `getScheme`. -/
def getScheme (s : List Char) : Except String (String × List Char) :=
  match getSchemeAux s [] s with
  | Except.error e => Except.error e
  | Except.ok (sch, rest) => Except.ok (sch.asString, rest)

/-- Go net/url `stringContainsCTLByte`. -/
def containsCTL (s : String) : Bool :=
  s.toList.any (fun c => Nat.blt c.toNat 32 || c.toNat == 127)

/-- Modelled from Go net/url `parseAuthority` / `parseHost`, simplified:
user-info before the last `@` is dropped rather than stored, and the
IPv6 bracket and port-digit validation is not modelled; the host is
percent-unescaped in host mode with Go's invalid-character checks. -/
def parseAuthority (authority : List Char) : Except String String :=
  let hostPart :=
    match lastIndexChar '@' authority with
    | none => authority
    | some i => authority.drop (i + 1)
  unescapeStr EncMode.host hostPart.asString

/-- Modelled from Go net/url `parse` with `viaRequest = false` (the form
used by `url.Parse`): control characters are rejected, the scheme is
extracted and lower-cased, a lone trailing `?` sets `ForceQuery`,
otherwise the query is split off at the first `?`; a rest without a
leading `/` becomes the opaque part (with a scheme) or a relative path
whose first segment must not contain `:`; `//` introduces an authority;
the path is percent-unescaped (Go's `setPath`). -/
def parseCore (rawURL : String) : Except String URL :=
  if containsCTL rawURL then Except.error "net/url: invalid control character in URL"
  else if rawURL = "*" then Except.ok { path := "*" }
  else
    match getScheme rawURL.toList with
    | Except.error e => Except.error e
    | Except.ok (sch, restL) =>
      let scheme := strToLower sch
      let rest0 := restL.asString
      let hasFQ := strEndsWithChar rest0 '?' && !(containsChar '?' (rest0.dropRight 1).toList)
      let rest1 := if hasFQ then rest0.dropRight 1 else (cutAtChar '?' rest0.toList).1.asString
      let rawQuery := if hasFQ then "" else (cutAtChar '?' rest0.toList).2.asString
      if !(strHasPre rest1 "/") then
        if !(scheme == "") then
          Except.ok { scheme := scheme, opq := rest1, forceQuery := hasFQ, rawQuery := rawQuery }
        else
          if containsChar ':' (cutAtChar '/' rest1.toList).1 then
            Except.error "first path segment in URL cannot contain colon"
          else
            match unescapeStr EncMode.path rest1 with
            | Except.error e => Except.error e
            | Except.ok p =>
              Except.ok { scheme := scheme, path := p, forceQuery := hasFQ, rawQuery := rawQuery }
      else
        if (!(scheme == "") || !(strHasPre rest1 "///")) && strHasPre rest1 "//" then
          let after := rest1.toList.drop 2
          let p := spanUntilSlash after
          match parseAuthority p.1 with
          | Except.error e => Except.error e
          | Except.ok host =>
            match unescapeStr EncMode.path p.2.asString with
            | Except.error e => Except.error e
            | Except.ok pth =>
              Except.ok { scheme := scheme, host := host, path := pth,
                          forceQuery := hasFQ, rawQuery := rawQuery }
        else
          match unescapeStr EncMode.path rest1 with
          | Except.error e => Except.error e
          | Except.ok pth =>
            Except.ok { scheme := scheme, path := pth, forceQuery := hasFQ, rawQuery := rawQuery }

/-- Go `url.Parse`: split the fragment off at the first `#`, parse the
rest, then store the unescaped fragment (an empty fragment is dropped,
exactly as Go's early return). -/
def URL.parse (rawURL : String) : Except String URL :=
  let p := cutAtChar '#' rawURL.toList
  match parseCore p.1.asString with
  | Except.error e => Except.error e
  | Except.ok u =>
    if p.2.isEmpty then Except.ok u
    else
      match unescapeStr EncMode.fragment p.2.asString with
      | Except.error e => Except.error e
      | Except.ok f => Except.ok { u with fragment := f }

/-- Go `URL.EscapedPath` (RawPath is not modelled, so this is always the
re-escaping of `path` in path mode). -/
def URL.escapedPath (u : URL) : String := escapeWith EncMode.path u.path

/-- Segment split of a path on `/`, as Go's `resolvePath` scanning loop
produces (a trailing separator yields a trailing empty segment). -/
def splitOnCharL (c : Char) : List Char → List (List Char)
  | [] => [[]]
  | x :: xs =>
    if x == c then [] :: splitOnCharL c xs
    else
      match splitOnCharL c xs with
      | [] => [[x]]
      | h :: t => (x :: h) :: t

/-- The body of Go's `resolvePath` loop: `dst` is the builder contents,
`first` records whether nothing real has been written yet, and the last
processed element is returned for the trailing `.` / `..` check. -/
def rpLoop : List (List Char) → List Char → Bool → List Char → List Char × List Char
  | [], dst, _, lastE => (dst, lastE)
  | e :: rest, dst, first, _ =>
    if e == ['.'] then rpLoop rest dst false e
    else if e == ['.', '.'] then
      match lastIndexChar '/' dst with
      | none => rpLoop rest [] true e
      | some i => rpLoop rest (dst.take i) first e
    else rpLoop rest (if first then dst ++ e else dst ++ '/' :: e) false e

/-- Go net/url `resolvePath`: merge `ref` onto `base` (RFC 3986 §5.2.3),
then remove `.` and `..` segments and force a leading `/`. -/
def resolvePathGo (base ref : String) : String :=
  let full : List Char :=
    if ref = "" then base.toList
    else if ref.toList.head? ≠ some '/' then
      match lastIndexChar '/' base.toList with
      | some i => base.toList.take (i + 1) ++ ref.toList
      | none => ref.toList
    else ref.toList
  if full.isEmpty then ""
  else
    let r := rpLoop (splitOnCharL '/' full) [] true []
    let dst := if r.2 == ['.'] || r.2 == ['.', '.'] then r.1 ++ ['/'] else r.1
    let dst2 :=
      match dst with
      | '/' :: t => t
      | t => t
    ('/' :: dst2).asString

/-- Go's `URL.setPath` as used inside `ResolveReference`, where the
returned error is discarded: on an unescape failure the path field is
left unchanged. -/
def setPathF (u : URL) (p : String) : URL :=
  match unescapeStr EncMode.path p with
  | Except.ok pth => { u with path := pth }
  | Except.error _ => u

/-- Modelled from Go net/url `URL.ResolveReference` (user-info not
modelled): an absolute reference keeps its own authority; an opaque
reference drops the host; otherwise host comes from the base, an empty
path/query reference inherits the base query (and fragment when the
reference has none), and the paths are merged with `resolvePath` over
the escaped forms. -/
def URL.resolveReference (u ref : URL) : URL :=
  let url := if ref.scheme = "" then { ref with scheme := u.scheme } else ref
  if !(ref.scheme == "") || !(ref.host == "") then
    setPathF url (resolvePathGo (URL.escapedPath ref) "")
  else if !(ref.opq == "") then
    { url with host := "", path := "" }
  else
    let url2 :=
      if ref.path == "" && !ref.forceQuery && ref.rawQuery == "" then
        let u2 := { url with rawQuery := u.rawQuery }
        if ref.fragment == "" then { u2 with fragment := u.fragment } else u2
      else url
    setPathF { url2 with host := u.host } (resolvePathGo (URL.escapedPath u) (URL.escapedPath ref))

/-- Modelled from Go net/url `URL.String` (user-info and `OmitHost` not
modelled): `scheme:`, then the opaque part or `//host` plus the escaped
path (with the leading-`/` insertion and the `./` relative-ambiguity
guard), then `?rawQuery` verbatim and the escaped fragment. -/
def URL.toString (u : URL) : String :=
  let b1 := if !(u.scheme == "") then u.scheme ++ ":" else ""
  let core :=
    if !(u.opq == "") then b1 ++ u.opq
    else
      let b2 :=
        if !(u.scheme == "") || !(u.host == "") then
          (if !(u.host == "") || !(u.path == "") then b1 ++ "//" else b1) ++
            escapeWith EncMode.host u.host
        else b1
      let p := URL.escapedPath u
      let b3 := if !(p == "") && !(p.toList.head? == some '/') && !(u.host == "") then b2 ++ "/" else b2
      let b4 :=
        if b3 == "" then
          if containsChar ':' (cutAtChar '/' p.toList).1 then b3 ++ "./" else b3
        else b3
      b4 ++ p
  core ++ (if u.forceQuery || !(u.rawQuery == "") then "?" ++ u.rawQuery else "") ++
    (if !(u.fragment == "") then "#" ++ escapeWith EncMode.fragment u.fragment else "")

/-- Go net/http `hasPort`: the last `:` comes after the last `]`. -/
def hasPort (s : String) : Bool :=
  match lastIndexChar ':' s.toList, lastIndexChar ']' s.toList with
  | some i, some j => Nat.blt j i
  | some _, none => true
  | none, _ => false

/-- Go net/http `removeEmptyPort`: strip a bare trailing colon. -/
def removeEmptyPort (s : String) : String :=
  if hasPort s then (if strEndsWithChar s ':' then s.dropRight 1 else s) else s

/-! ## HTTP headers and request objects (Go net/http, net/textproto) -/

/-- The byte values Go's `isTokenTable` allows in header field names
besides ASCII letters and digits. -/
def tokenSpecials : List Nat := [33, 35, 36, 37, 38, 39, 42, 43, 45, 46, 94, 95, 96, 124, 126]

/-- Go net/textproto `validHeaderFieldByte`. -/
def validHeaderFieldChar (c : Char) : Bool :=
  c.isAlphanum || tokenSpecials.contains c.toNat

/-- Case-canonicalisation pass of Go net/textproto
`canonicalMIMEHeaderKey`: upper-case at the start and after each `-`,
lower-case elsewhere. -/
def canonChars : Bool → List Char → List Char
  | _, [] => []
  | upper, c :: cs => (if upper then c.toUpper else c.toLower) :: canonChars (c == '-') cs

/-- Modelled from Go net/textproto `CanonicalMIMEHeaderKey`: a key with
any invalid byte is returned unchanged, otherwise it is case-canonicalised. -/
def canonicalMIMEHeaderKey (s : String) : String :=
  if s.toList.all validHeaderFieldChar then (canonChars true s.toList).asString else s

/-- Go `http.Header`: a map from canonical key to a list of values. -/
abbrev Header := List (String × List String)

/-- Go `Header.Set`: replace all values of the canonical key. -/
def headerSet (h : Header) (k v : String) : Header :=
  setKeyA h (canonicalMIMEHeaderKey k) [v]

/-- Go `Header.Add`: append one value under the canonical key. -/
def headerAdd (h : Header) (k v : String) : Header :=
  let ck := canonicalMIMEHeaderKey k
  setKeyA h ck ((getKeyO h ck).getD [] ++ [v])

/-- Go `Header.Values`: all values stored under the canonical key. -/
def headerValues (h : Header) (k : String) : List String :=
  (getKeyO h (canonicalMIMEHeaderKey k)).getD []

/-- The outgoing `*http.Request`, restricted to the fields this
repository writes: method, parsed URL, header map, body bytes and the
`ContentLength` field that `NewRequest` derives from a `bytes.Reader`. -/
structure HttpRequest where
  method : String
  url : URL
  header : Header
  body : List UInt8
  contentLength : Nat
deriving DecidableEq

/-- Go net/http `validMethod`: non-empty and made of token characters. -/
def validMethod (m : String) : Bool :=
  !(m == "") && m.toList.all (fun c => Nat.blt c.toNat 128 && validHeaderFieldChar c)

/-- Modelled from Go net/http `NewRequestWithContext` applied to a
`bytes.Reader` body: the context is not modelled (the repository only
forwards it); the method is validated, the URL string is re-parsed, an
empty port is stripped from the host, and the request starts with an
empty header map, the body bytes and their length. -/
def newRequestWithContext (method urlStr : String) (body : List UInt8) : Except String HttpRequest :=
  if !(validMethod (if method == "" then "GET" else method)) then
    Except.error "net/http: invalid method"
  else
    match URL.parse urlStr with
    | Except.error e => Except.error e
    | Except.ok u =>
      Except.ok { method := if method == "" then "GET" else method,
                  url := { u with host := removeEmptyPort u.host },
                  header := [], body := body, contentLength := body.length }

/-! ## The request builder (request.go) -/

/-- `requests.Request`: the fluent builder. The Go struct's `client`
field is an external transport handle; it is passed to the verb
functions as an explicit argument instead of being stored, and the
untyped `body` / `result` interface values are the type parameters
`β` (pending JSON body) and `τ` (decode target). -/
structure Request (β τ : Type) where
  url : URL
  headers : List (String × String)
  queryParams : Values
  body : Option β := none
  bodyBytes : List UInt8 := []
  result : Option τ := none

/-- `requests.New`: seed the header map with `Accept` and start with
empty query parameters. -/
def Request.new {β τ : Type} (requestURL : URL) (accepts : String) : Request β τ :=
  { url := requestURL, headers := [("Accept", accepts)], queryParams := [] }

/-- `Request.WithHeader`. -/
def Request.withHeader {β τ : Type} (r : Request β τ) (key value : String) : Request β τ :=
  { r with headers := setKeyA r.headers key value }

/-- `Request.WithQueryParam`. -/
def Request.withQueryParam {β τ : Type} (r : Request β τ) (key value : String) : Request β τ :=
  { r with queryParams := valuesAdd r.queryParams key value }

/-- `Request.WithJSONBody`: mark the content type and retain the value
unserialized. -/
def Request.withJSONBody {β τ : Type} (r : Request β τ) (body : β) : Request β τ :=
  { r with headers := setKeyA r.headers "Content-Type" "application/json", body := some body }

/-- `Request.WithBodyBytes`. -/
def Request.withBodyBytes {β τ : Type} (r : Request β τ) (body : List UInt8) : Request β τ :=
  { r with bodyBytes := body }

/-- `Request.WithAuthorization`. -/
def Request.withAuthorization {β τ : Type} (r : Request β τ) (token : String) : Request β τ :=
  { r with headers := setKeyA r.headers "Authorization" ("Bearer " ++ token) }

/-- `Request.WithHeaders`: per-key overwrite merge. -/
def Request.withHeaders {β τ : Type} (r : Request β τ) (hs : List (String × String)) : Request β τ :=
  { r with headers := hs.foldl (fun a p => setKeyA a p.1 p.2) r.headers }

/-- `Request.WithQueryParams`: per-key overwrite of the whole value list. -/
def Request.withQueryParams {β τ : Type} (r : Request β τ) (qp : Values) : Request β τ :=
  { r with queryParams := qp.foldl (fun a p => setKeyA a p.1 p.2) r.queryParams }

/-- `Request.WithResult`. -/
def Request.withResult {β τ : Type} (r : Request β τ) (result : Option τ) : Request β τ :=
  { r with result := result }

/-- The URL value built inside `Request.Request` before the request
object is assembled: parse the path, resolve it against the base, then
assign the encoded-then-unescaped query string. -/
def Request.resolvedURL {β τ : Type} (r : Request β τ) (path : String) : Except String URL :=
  match URL.parse path with
  | Except.error e => Except.error e
  | Except.ok ref =>
    let refURL := URL.resolveReference r.url ref
    match queryUnescape (valuesEncode r.queryParams) with
    | Except.error e => Except.error e
    | Except.ok q => Except.ok { refURL with rawQuery := q }

/-- `Request.Request`: build the outgoing request from the resolved URL's
serialisation, apply every accumulated header with `Header.Set`, and
`Header.Add` a `Content-Length` when the body bytes are non-empty. -/
def Request.buildRequest {β τ : Type} (r : Request β τ) (method path : String) :
    Except String HttpRequest :=
  match Request.resolvedURL r path with
  | Except.error e => Except.error e
  | Except.ok refURL =>
    match newRequestWithContext method (URL.toString refURL) r.bodyBytes with
    | Except.error e => Except.error e
    | Except.ok req0 =>
      let req1 := { req0 with header := r.headers.foldl (fun h p => headerSet h p.1 p.2) req0.header }
      if Nat.blt 0 r.bodyBytes.length then
        Except.ok { req1 with header := headerAdd req1.header "Content-Length" (Nat.repr r.bodyBytes.length) }
      else Except.ok req1

/-- Observable effects of a verb call: serialising the pending JSON body
and handing a request to the transport. -/
inductive Event where
  | marshal
  | send (req : HttpRequest)
deriving DecidableEq

/-- The transport's answer, restricted to what the repository reads:
the response body bytes (`resp.Body`, always closed after use). -/
structure Response where
  body : List UInt8
deriving DecidableEq

/-- `Request.do`: build, send, and decode into the target when one is
set. `send` is the transport (`r.client.Do`) and `dec` the JSON decoder
(`json.NewDecoder(resp.Body).Decode`), both external collaborators; a
decode failure returns the decoder's error (the partially decoded
target's residual state is not observable through the builder, whose
`result` field is the unchanged Go pointer). Returns the call result,
the builder state after the call and the event trace. -/
def Request.doCall {β τ : Type} (send : HttpRequest → Except String Response)
    (dec : List UInt8 → τ → Except String τ) (r : Request β τ) (method path : String) :
    Except String (Option τ) × Request β τ × List Event :=
  match Request.buildRequest r method path with
  | Except.error e => (Except.error e, r, [])
  | Except.ok req =>
    match send req with
    | Except.error e => (Except.error e, r, [Event.send req])
    | Except.ok resp =>
      match r.result with
      | none => (Except.ok none, r, [Event.send req])
      | some t =>
        match dec resp.body t with
        | Except.error e => (Except.error e, r, [Event.send req])
        | Except.ok t2 => (Except.ok (some t2), { r with result := some t2 }, [Event.send req])

/-- `Request.Get`. -/
def Request.get {β τ : Type} (send : HttpRequest → Except String Response)
    (dec : List UInt8 → τ → Except String τ) (r : Request β τ) (path : String) :
    Except String (Option τ) × Request β τ × List Event :=
  Request.doCall send dec r "GET" path

/-- `Request.Delete`. -/
def Request.delete {β τ : Type} (send : HttpRequest → Except String Response)
    (dec : List UInt8 → τ → Except String τ) (r : Request β τ) (path : String) :
    Except String (Option τ) × Request β τ × List Event :=
  Request.doCall send dec r "DELETE" path

/-- The shared body of `Request.Post` / `Put` / `Patch`: when a pending
JSON body is set, serialise it now (`mFn` is `json.Marshal`); Go's
two-value assignment stores the marshal result into `r.bodyBytes` even
on failure (where `json.Marshal` returns a nil slice), and a failure
aborts the call before any request is built or sent. -/
def Request.sendJSON {β τ : Type} (mFn : β → Except String (List UInt8))
    (send : HttpRequest → Except String Response) (dec : List UInt8 → τ → Except String τ)
    (r : Request β τ) (method path : String) :
    Except String (Option τ) × Request β τ × List Event :=
  match r.body with
  | none => Request.doCall send dec r method path
  | some b =>
    match mFn b with
    | Except.error e => (Except.error e, { r with bodyBytes := [] }, [Event.marshal])
    | Except.ok bs =>
      let p := Request.doCall send dec { r with bodyBytes := bs } method path
      (p.1, p.2.1, Event.marshal :: p.2.2)

/-- `Request.Post`. -/
def Request.post {β τ : Type} (mFn : β → Except String (List UInt8))
    (send : HttpRequest → Except String Response) (dec : List UInt8 → τ → Except String τ)
    (r : Request β τ) (path : String) :
    Except String (Option τ) × Request β τ × List Event :=
  Request.sendJSON mFn send dec r "POST" path

/-- `Request.Put`. -/
def Request.put {β τ : Type} (mFn : β → Except String (List UInt8))
    (send : HttpRequest → Except String Response) (dec : List UInt8 → τ → Except String τ)
    (r : Request β τ) (path : String) :
    Except String (Option τ) × Request β τ × List Event :=
  Request.sendJSON mFn send dec r "PUT" path

/-- `Request.Patch`. -/
def Request.patch {β τ : Type} (mFn : β → Except String (List UInt8))
    (send : HttpRequest → Except String Response) (dec : List UInt8 → τ → Except String τ)
    (r : Request β τ) (path : String) :
    Except String (Option τ) × Request β τ × List Event :=
  Request.sendJSON mFn send dec r "PATCH" path

/-! ## Concrete fixtures used by closed theorems and witnesses -/

/-- The spec's example base endpoint, as produced by `url.Parse`. -/
def base7 : URL :=
  match URL.parse "https://api.example.com/v1/" with
  | Except.ok u => u
  | Except.error _ => {}

/-- A builder over the example base endpoint. -/
def req7a : Request Unit Unit := Request.new base7 "application/json"

/-- A second parsed base endpoint. -/
def base2 : URL :=
  match URL.parse "https://x.example/p" with
  | Except.ok u => u
  | Except.error _ => {}

/-- A builder holding a query value containing `#`: its standard encoding
escapes the `#`, and the unescape step restores it. -/
def r2 : Request Unit Unit :=
  Request.withQueryParam (Request.new base2 "application/json") "k" "a#b"

/-- The request `r2` actually constructs. -/
def req2 : HttpRequest :=
  match Request.buildRequest r2 "GET" "" with
  | Except.ok q => q
  | Except.error _ => { method := "", url := {}, header := [], body := [], contentLength := 0 }

/-- A builder holding a benign query value (space only). -/
def r2b : Request Unit Unit :=
  Request.withQueryParam (Request.new base2 "application/json") "k" "v w"

/-- The resolved URL `r2b` produces for an empty call path. -/
def u2b : URL :=
  match Request.resolvedURL r2b "" with
  | Except.ok u => u
  | Except.error _ => {}

/-- A builder with a 17-byte raw body, the spec's Content-Length example. -/
def r17 : Request Unit Unit :=
  Request.withBodyBytes (Request.new base7 "application/json") (List.replicate 17 (0 : UInt8))

/-- The request `r17` constructs. -/
def req17 : HttpRequest :=
  match Request.buildRequest r17 "GET" "widgets/42" with
  | Except.ok q => q
  | Except.error _ => { method := "", url := {}, header := [], body := [], contentLength := 0 }

/-- A marshaller that always succeeds, for witnesses. -/
def mOk : Unit → Except String (List UInt8) := fun _ => Except.ok [123, 125]

/-- A marshaller that always fails, standing for `json.Marshal` on an
unsupported value. -/
def mErr : Unit → Except String (List UInt8) := fun _ => Except.error "json: unsupported type"

/-- A transport stub that always succeeds with an empty body. -/
def sendOk : HttpRequest → Except String Response := fun _ => Except.ok { body := [] }

/-- A decoder stub that leaves the target unchanged. -/
def decOk : List UInt8 → Unit → Except String Unit := fun _ t => Except.ok t

/-- The query key used by the C9 witness. -/
def k9 : String := "k"

/-! ## Association-list lemmas -/

theorem getKeyO_setKeyA_same {α : Type} (l : List (String × α)) (k : String) (a : α) :
    getKeyO (setKeyA l k a) k = some a := by
  induction l with
  | nil => simp [setKeyA, getKeyO]
  | cons p t ih =>
    obtain ⟨k', a'⟩ := p
    by_cases h : k' = k
    · simp [setKeyA, h, getKeyO]
    · simp [setKeyA, h, getKeyO, ih]

theorem getKeyO_setKeyA_ne {α : Type} (l : List (String × α)) (k k' : String) (a : α)
    (h : k' ≠ k) : getKeyO (setKeyA l k a) k' = getKeyO l k' := by
  have hne : ¬(k = k') := fun h' => h h'.symm
  induction l with
  | nil => simp [setKeyA, getKeyO, hne]
  | cons p t ih =>
    obtain ⟨k0, a0⟩ := p
    by_cases h0 : k0 = k
    · subst h0
      simp [setKeyA, getKeyO, hne]
    · simp [setKeyA, h0, getKeyO, ih]

theorem getKeyO_eq_none {α : Type} (l : List (String × α)) (k : String)
    (h : k ∉ l.map Prod.fst) : getKeyO l k = none := by
  induction l with
  | nil => simp [getKeyO]
  | cons p t ih =>
    obtain ⟨k0, a0⟩ := p
    simp only [List.map_cons, List.mem_cons] at h
    push_neg at h
    have hne : ¬(k0 = k) := Ne.symm h.1
    simp [getKeyO, hne, ih h.2]

theorem valuesGet_add_same (v : Values) (k val : String) :
    valuesGet (valuesAdd v k val) k = valuesGet v k ++ [val] := by
  simp [valuesAdd, valuesGet, getKeyO_setKeyA_same]

theorem getKeyO_add_ne (v : Values) (k k' val : String) (h : k' ≠ k) :
    getKeyO (valuesAdd v k val) k' = getKeyO v k' := by
  simp [valuesAdd, getKeyO_setKeyA_ne _ _ _ _ h]

theorem foldl_setKeyA_lookup {α : Type} (qp : List (String × α)) :
    ∀ init : List (String × α), (qp.map Prod.fst).Nodup → ∀ k,
      getKeyO (qp.foldl (fun a p => setKeyA a p.1 p.2) init) k =
        ((getKeyO qp k).map some).getD (getKeyO init k) := by
  induction qp with
  | nil => intro init _ k; simp [getKeyO]
  | cons p t ih =>
    intro init hnd k
    obtain ⟨k0, v0⟩ := p
    have hnd' : (t.map Prod.fst).Nodup := hnd.of_cons
    have hk0 : k0 ∉ t.map Prod.fst := (List.nodup_cons.mp hnd).1
    simp only [List.foldl_cons]
    rw [ih (setKeyA init k0 v0) hnd' k]
    by_cases hk : k0 = k
    · subst hk
      rw [getKeyO_eq_none t k0 hk0]
      simp [getKeyO, getKeyO_setKeyA_same]
    · cases h2 : getKeyO t k with
      | some vs => simp [getKeyO, hk, h2]
      | none =>
        have hne : k ≠ k0 := fun h' => hk h'.symm
        simp [getKeyO, hk, h2, getKeyO_setKeyA_ne init k0 k v0 hne]

/-! ## Claim theorems -/

/-- C3: bulk-merging an external query multimap via `WithQueryParams`
replaces the builder's whole value list for every key present in the
incoming multimap, and keys absent from it keep their prior value lists. -/
theorem c3_withQueryParams_overwrites {β τ : Type} (r : Request β τ) (qp : Values)
    (hnd : (qp.map Prod.fst).Nodup) (k : String) :
    (∀ vs, getKeyO qp k = some vs →
      getKeyO (Request.withQueryParams r qp).queryParams k = some vs) ∧
    (getKeyO qp k = none →
      getKeyO (Request.withQueryParams r qp).queryParams k = getKeyO r.queryParams k) := by
  have h := foldl_setKeyA_lookup qp r.queryParams hnd k
  constructor
  · intro vs hvs
    rw [hvs] at h
    simpa [Request.withQueryParams] using h
  · intro hn
    rw [hn] at h
    simpa [Request.withQueryParams] using h

/-- Witness for C3 at a concrete builder: the incoming list for `a`
replaces `["1"]` by `["9"]`, while the untouched key `b` keeps `["2"]`. -/
theorem c3_witness :
    getKeyO (Request.withQueryParams
        (⟨base2, [], [("a", ["1"]), ("b", ["2"])], none, [], none⟩ : Request Unit Unit)
        [("a", ["9"]), ("c", ["3"])]).queryParams "a" = some ["9"] ∧
    getKeyO (Request.withQueryParams
        (⟨base2, [], [("a", ["1"]), ("b", ["2"])], none, [], none⟩ : Request Unit Unit)
        [("a", ["9"]), ("c", ["3"])]).queryParams "b" = some ["2"] := by
  constructor
  · exact (c3_withQueryParams_overwrites
      (⟨base2, [], [("a", ["1"]), ("b", ["2"])], none, [], none⟩ : Request Unit Unit)
      [("a", ["9"]), ("c", ["3"])] (by decide) "a").1 ["9"] (by decide)
  · exact ((c3_withQueryParams_overwrites
      (⟨base2, [], [("a", ["1"]), ("b", ["2"])], none, [], none⟩ : Request Unit Unit)
      [("a", ["9"]), ("c", ["3"])] (by decide) "b").2 (by decide)).trans (by decide)

/-- C8: on the single-header operation a later `WithHeader` with the same
key overwrites the earlier value, and every other key is unaffected. -/
theorem c8_withHeader_last_write_wins {β τ : Type} (r : Request β τ) (k v1 v2 : String) :
    getKeyO (Request.withHeader (Request.withHeader r k v1) k v2).headers k = some v2 ∧
    ∀ k', k' ≠ k →
      getKeyO (Request.withHeader (Request.withHeader r k v1) k v2).headers k' =
        getKeyO r.headers k' := by
  constructor
  · simp [Request.withHeader, getKeyO_setKeyA_same]
  · intro k' h
    simp [Request.withHeader, getKeyO_setKeyA_ne _ _ _ _ h]

/-- Witness for C8: overwriting `Accept` twice keeps only the later
value and leaves `X-Other` alone. -/
theorem c8_witness :
    getKeyO (Request.withHeader (Request.withHeader
      (Request.withHeader (Request.new base2 "a" : Request Unit Unit) "X-Other" "z")
      "Accept" "v1") "Accept" "v2").headers "Accept" = some "v2" ∧
    getKeyO (Request.withHeader (Request.withHeader
      (Request.withHeader (Request.new base2 "a" : Request Unit Unit) "X-Other" "z")
      "Accept" "v1") "Accept" "v2").headers "X-Other" = some "z" := by
  have h := c8_withHeader_last_write_wins
    (Request.withHeader (Request.new base2 "a" : Request Unit Unit) "X-Other" "z") "Accept" "v1" "v2"
  exact ⟨h.1, (h.2 "X-Other" (by decide)).trans (by decide)⟩

/-- C9: each `WithQueryParam` call appends one value for its key without
clearing prior ones, so a sequence of additions for one key accumulates
all the values in add order, and other keys are untouched. -/
theorem c9_withQueryParam_accumulates {β τ : Type} (r : Request β τ) (k : String) (vs : List String) :
    valuesGet (vs.foldl (fun (a : Request β τ) v => Request.withQueryParam a k v) r).queryParams k
      = valuesGet r.queryParams k ++ vs ∧
    ∀ k', k' ≠ k →
      getKeyO (vs.foldl (fun (a : Request β τ) v => Request.withQueryParam a k v) r).queryParams k'
        = getKeyO r.queryParams k' := by
  induction vs generalizing r with
  | nil => simp
  | cons v rest ih =>
    have h := ih (Request.withQueryParam r k v)
    constructor
    · simpa [Request.withQueryParam, valuesGet_add_same] using h.1
    · intro k' hk
      have := h.2 k' hk
      simpa [Request.withQueryParam, getKeyO_add_ne _ _ _ _ hk] using this

/-- Witness for C9: three additions under `k` yield the three values in
add order, on top of a pre-existing one, while `other` is untouched. -/
theorem c9_witness :
    valuesGet (["1", "2", "3"].foldl
      (fun (a : Request Unit Unit) v => Request.withQueryParam a k9 v)
      (⟨base2, [], [(k9, ["0"]), ("other", ["z"])], none, [], none⟩ : Request Unit Unit)).queryParams
      k9 = ["0", "1", "2", "3"] ∧
    getKeyO (["1", "2", "3"].foldl
      (fun (a : Request Unit Unit) v => Request.withQueryParam a k9 v)
      (⟨base2, [], [(k9, ["0"]), ("other", ["z"])], none, [], none⟩ : Request Unit Unit)).queryParams
      "other" = some ["z"] := by
  have h := c9_withQueryParam_accumulates
    (⟨base2, [], [(k9, ["0"]), ("other", ["z"])], none, [], none⟩ : Request Unit Unit)
    k9 ["1", "2", "3"]
  exact ⟨h.1.trans (by decide), (h.2 "other" (by decide)).trans (by decide)⟩

/-! ## Structural lemmas about request construction and verb calls -/

theorem newRequest_fields (method urlStr : String) (body : List UInt8) (req : HttpRequest)
    (h : newRequestWithContext method urlStr body = Except.ok req) :
    req.body = body ∧ req.header = [] := by
  unfold newRequestWithContext at h
  by_cases hv : (!validMethod (if method == "" then "GET" else method)) = true
  · rw [if_pos hv] at h
    cases h
  · rw [if_neg hv] at h
    cases hp : URL.parse urlStr with
    | error e =>
      rw [hp] at h
      cases h
    | ok u =>
      rw [hp] at h
      cases h
      exact ⟨rfl, rfl⟩

theorem buildRequest_body {β τ : Type} (r : Request β τ) (method path : String) (req : HttpRequest)
    (h : Request.buildRequest r method path = Except.ok req) : req.body = r.bodyBytes := by
  unfold Request.buildRequest at h
  split at h
  · cases h
  · rename_i u hu
    split at h
    · cases h
    · rename_i req0 hreq0
      have hb := (newRequest_fields method (URL.toString u) r.bodyBytes req0 hreq0).1
      split at h
      · cases h
        exact hb
      · cases h
        exact hb

theorem buildRequest_header {β τ : Type} (r : Request β τ) (method path : String) (req : HttpRequest)
    (h : Request.buildRequest r method path = Except.ok req) :
    req.header =
      if Nat.blt 0 r.bodyBytes.length then
        headerAdd (r.headers.foldl (fun hh p => headerSet hh p.1 p.2) []) "Content-Length"
          (Nat.repr r.bodyBytes.length)
      else r.headers.foldl (fun hh p => headerSet hh p.1 p.2) [] := by
  unfold Request.buildRequest at h
  split at h
  · cases h
  · rename_i u hu
    split at h
    · cases h
    · rename_i req0 hreq0
      have hh := (newRequest_fields method (URL.toString u) r.bodyBytes req0 hreq0).2
      split at h
      · rename_i hlen
        cases h
        simp [hlen, hh]
      · rename_i hlen
        cases h
        simp [hlen, hh]

theorem doCall_state {β τ : Type} (send : HttpRequest → Except String Response)
    (dec : List UInt8 → τ → Except String τ) (r : Request β τ) (method path : String) :
    (Request.doCall send dec r method path).2.1.url = r.url ∧
    (Request.doCall send dec r method path).2.1.headers = r.headers ∧
    (Request.doCall send dec r method path).2.1.queryParams = r.queryParams ∧
    (Request.doCall send dec r method path).2.1.bodyBytes = r.bodyBytes := by
  unfold Request.doCall
  split
  · exact ⟨rfl, rfl, rfl, rfl⟩
  · split
    · exact ⟨rfl, rfl, rfl, rfl⟩
    · split
      · exact ⟨rfl, rfl, rfl, rfl⟩
      · split
        · exact ⟨rfl, rfl, rfl, rfl⟩
        · exact ⟨rfl, rfl, rfl, rfl⟩

theorem doCall_trace_shape {β τ : Type} (send : HttpRequest → Except String Response)
    (dec : List UInt8 → τ → Except String τ) (r : Request β τ) (method path : String) :
    (Request.doCall send dec r method path).2.2 = [] ∨
    ∃ req, Request.buildRequest r method path = Except.ok req ∧
      (Request.doCall send dec r method path).2.2 = [Event.send req] := by
  unfold Request.doCall
  split
  · exact Or.inl rfl
  · rename_i req hreq
    right
    refine ⟨req, hreq, ?_⟩
    split
    · rfl
    · split
      · rfl
      · split
        · rfl
        · rfl

theorem doCall_no_marshal {β τ : Type} (send : HttpRequest → Except String Response)
    (dec : List UInt8 → τ → Except String τ) (r : Request β τ) (method path : String) :
    Event.marshal ∉ (Request.doCall send dec r method path).2.2 := by
  rcases doCall_trace_shape send dec r method path with h | ⟨req, _, h⟩ <;> simp [h]

theorem doCall_send_body {β τ : Type} (send : HttpRequest → Except String Response)
    (dec : List UInt8 → τ → Except String τ) (r : Request β τ) (method path : String) :
    ∀ req, Event.send req ∈ (Request.doCall send dec r method path).2.2 →
      req.body = r.bodyBytes := by
  intro req hmem
  rcases doCall_trace_shape send dec r method path with h | ⟨req0, hb, h⟩
  · rw [h] at hmem
    cases hmem
  · rw [h] at hmem
    simp only [List.mem_singleton, Event.send.injEq] at hmem
    subst hmem
    exact buildRequest_body r method path req hb

theorem sendJSON_state {β τ : Type} (mFn : β → Except String (List UInt8))
    (send : HttpRequest → Except String Response) (dec : List UInt8 → τ → Except String τ)
    (r : Request β τ) (method path : String) :
    (Request.sendJSON mFn send dec r method path).2.1.headers = r.headers ∧
    (Request.sendJSON mFn send dec r method path).2.1.queryParams = r.queryParams := by
  unfold Request.sendJSON
  split
  · exact ⟨(doCall_state send dec r method path).2.1, (doCall_state send dec r method path).2.2.1⟩
  · rename_i b hb
    split
    · exact ⟨rfl, rfl⟩
    · rename_i bs hbs
      exact ⟨(doCall_state send dec { r with bodyBytes := bs } method path).2.1,
             (doCall_state send dec { r with bodyBytes := bs } method path).2.2.1⟩

theorem sendJSON_marshal_mem {β τ : Type} (mFn : β → Except String (List UInt8))
    (send : HttpRequest → Except String Response) (dec : List UInt8 → τ → Except String τ)
    (r : Request β τ) (b : β) (hb : r.body = some b) (method path : String) :
    Event.marshal ∈ (Request.sendJSON mFn send dec r method path).2.2 := by
  cases hmm : mFn b <;> simp [Request.sendJSON, hb, hmm]

theorem headerValues_headerAdd (h : Header) (k v : String) :
    headerValues (headerAdd h k v) k = headerValues h k ++ [v] := by
  simp [headerAdd, headerValues, getKeyO_setKeyA_same]

theorem foldl_headerSet_preserves (hs : List (String × String)) :
    ∀ init : Header, ∀ K : String, (∀ p ∈ hs, canonicalMIMEHeaderKey p.1 ≠ K) →
      getKeyO (hs.foldl (fun hh p => headerSet hh p.1 p.2) init) K = getKeyO init K := by
  induction hs with
  | nil => intro init K _; rfl
  | cons p t ih =>
    intro init K hK
    simp only [List.foldl_cons]
    rw [ih _ K (fun q hq => hK q (List.mem_cons_of_mem p hq))]
    exact getKeyO_setKeyA_ne init (canonicalMIMEHeaderKey p.1) K [p.2]
      (Ne.symm (hK p (List.mem_cons_self p t)))

/-! ## Claim theorems about verb calls -/

/-- C1: after `WithJSONBody`, a `Get` or `Delete` never serialises the
pending body (no marshal event, and the stored byte body is untouched by
`WithJSONBody`) and never sends it: every request handed to the
transport carries exactly the previously stored byte body; `Post` (and
via the same code path `Put` / `Patch`) is what triggers serialisation. -/
theorem c1_get_delete_never_serialize {β τ : Type} (mFn : β → Except String (List UInt8))
    (send : HttpRequest → Except String Response) (dec : List UInt8 → τ → Except String τ)
    (r0 : Request β τ) (b : β) (path : String) :
    (Request.withJSONBody r0 b).bodyBytes = r0.bodyBytes ∧
    Event.marshal ∉ (Request.get send dec (Request.withJSONBody r0 b) path).2.2 ∧
    (∀ req, Event.send req ∈ (Request.get send dec (Request.withJSONBody r0 b) path).2.2 →
      req.body = r0.bodyBytes) ∧
    Event.marshal ∉ (Request.delete send dec (Request.withJSONBody r0 b) path).2.2 ∧
    (∀ req, Event.send req ∈ (Request.delete send dec (Request.withJSONBody r0 b) path).2.2 →
      req.body = r0.bodyBytes) ∧
    Event.marshal ∈ (Request.post mFn send dec (Request.withJSONBody r0 b) path).2.2 := by
  refine ⟨rfl, ?_, ?_, ?_, ?_, ?_⟩
  · exact doCall_no_marshal send dec (Request.withJSONBody r0 b) "GET" path
  · exact doCall_send_body send dec (Request.withJSONBody r0 b) "GET" path
  · exact doCall_no_marshal send dec (Request.withJSONBody r0 b) "DELETE" path
  · exact doCall_send_body send dec (Request.withJSONBody r0 b) "DELETE" path
  · exact sendJSON_marshal_mem mFn send dec (Request.withJSONBody r0 b) b rfl "POST" path

/-- Witness for C1 at concrete stubs: a `Get` after `WithJSONBody`
produces no marshal event. -/
theorem c1_witness :
    Event.marshal ∉
      (Request.get sendOk decOk (Request.withJSONBody (Request.new base2 "a") ()) "w").2.2 :=
  (c1_get_delete_never_serialize mOk sendOk decOk (Request.new base2 "a") () "w").2.1

/-- C4: when the pending JSON body fails to marshal, `Post` (and `Put`
and `Patch`) return exactly the encoding error and never invoke the
transport: no send event occurs. -/
theorem c4_marshal_error_no_send {β τ : Type} (mFn : β → Except String (List UInt8))
    (send : HttpRequest → Except String Response) (dec : List UInt8 → τ → Except String τ)
    (r : Request β τ) (b : β) (e : String) (hb : r.body = some b)
    (hm : mFn b = Except.error e) (path : String) :
    ((Request.post mFn send dec r path).1 = Except.error e ∧
      ∀ req, Event.send req ∉ (Request.post mFn send dec r path).2.2) ∧
    ((Request.put mFn send dec r path).1 = Except.error e ∧
      ∀ req, Event.send req ∉ (Request.put mFn send dec r path).2.2) ∧
    ((Request.patch mFn send dec r path).1 = Except.error e ∧
      ∀ req, Event.send req ∉ (Request.patch mFn send dec r path).2.2) := by
  refine ⟨⟨?_, ?_⟩, ⟨?_, ?_⟩, ⟨?_, ?_⟩⟩ <;>
    simp [Request.post, Request.put, Request.patch, Request.sendJSON, hb, hm]

/-- Witness for C4: a failing marshaller on a builder with a pending
body yields the marshal error from `Post` with an empty-send trace. -/
theorem c4_witness :
    (Request.post mErr sendOk decOk (Request.withJSONBody (Request.new base2 "a") ()) "w").1 =
      Except.error "json: unsupported type" :=
  ((c4_marshal_error_no_send mErr sendOk decOk (Request.withJSONBody (Request.new base2 "a") ())
    () "json: unsupported type" rfl rfl "w").1).1

/-- C5: every verb call — successful or failed — leaves the builder's
accumulated header map and query-parameter multimap exactly as they
were, so the builder remains usable afterwards. -/
theorem c5_config_survives_calls {β τ : Type} (mFn : β → Except String (List UInt8))
    (send : HttpRequest → Except String Response) (dec : List UInt8 → τ → Except String τ)
    (r : Request β τ) (path : String) :
    ((Request.get send dec r path).2.1.headers = r.headers ∧
      (Request.get send dec r path).2.1.queryParams = r.queryParams) ∧
    ((Request.post mFn send dec r path).2.1.headers = r.headers ∧
      (Request.post mFn send dec r path).2.1.queryParams = r.queryParams) ∧
    ((Request.put mFn send dec r path).2.1.headers = r.headers ∧
      (Request.put mFn send dec r path).2.1.queryParams = r.queryParams) ∧
    ((Request.patch mFn send dec r path).2.1.headers = r.headers ∧
      (Request.patch mFn send dec r path).2.1.queryParams = r.queryParams) ∧
    ((Request.delete send dec r path).2.1.headers = r.headers ∧
      (Request.delete send dec r path).2.1.queryParams = r.queryParams) := by
  refine ⟨⟨?_, ?_⟩, sendJSON_state mFn send dec r "POST" path,
    sendJSON_state mFn send dec r "PUT" path, sendJSON_state mFn send dec r "PATCH" path, ?_, ?_⟩
  · exact (doCall_state send dec r "GET" path).2.1
  · exact (doCall_state send dec r "GET" path).2.2.1
  · exact (doCall_state send dec r "DELETE" path).2.1
  · exact (doCall_state send dec r "DELETE" path).2.2.1

/-- C6: when the accumulated byte body is non-empty the constructed
request carries a `Content-Length` header whose (last-added) value is
the decimal byte length; with an empty body the builder adds no such
header (so none is present unless the caller stored one). -/
theorem c6_content_length {β τ : Type} (r : Request β τ) (method path : String)
    (req : HttpRequest) (h : Request.buildRequest r method path = Except.ok req) :
    (r.bodyBytes ≠ [] →
      (headerValues req.header "Content-Length").getLast? = some (Nat.repr r.bodyBytes.length)) ∧
    (r.bodyBytes = [] → (∀ p ∈ r.headers, canonicalMIMEHeaderKey p.1 ≠ "Content-Length") →
      headerValues req.header "Content-Length" = []) := by
  have hh := buildRequest_header r method path req h
  constructor
  · intro hne
    have hlen : Nat.blt 0 r.bodyBytes.length = true := by
      have : 0 < r.bodyBytes.length := List.length_pos.mpr hne
      simpa [Nat.blt_eq] using this
    rw [hh, if_pos hlen, headerValues_headerAdd]
    simp
  · intro hnil habs
    have hlen : ¬ (Nat.blt 0 r.bodyBytes.length = true) := by
      simp [hnil]
    rw [hh, if_neg hlen]
    unfold headerValues
    have hcanon : canonicalMIMEHeaderKey "Content-Length" = "Content-Length" := by decide
    rw [hcanon, foldl_headerSet_preserves r.headers [] "Content-Length" habs]
    rfl

/-- Witness for C6: the spec's example — a 17-byte raw body yields the
Content-Length value `"17"` on the constructed request. -/
theorem c6_witness :
    (headerValues req17.header "Content-Length").getLast? = some "17" :=
  (c6_content_length r17 "GET" "widgets/42" req17 rfl).1 (by decide)

/-- C10: a `Post` whose pending JSON body marshals to `bs` stores `bs`
as the builder's byte body, the bytes persist after the call, and any
subsequent verb call on the resulting builder sends requests whose body
is exactly `bs`. -/
theorem c10_post_bytes_persist {β τ : Type} (mFn : β → Except String (List UInt8))
    (send : HttpRequest → Except String Response) (dec : List UInt8 → τ → Except String τ)
    (r : Request β τ) (b : β) (bs : List UInt8) (hb : r.body = some b)
    (hm : mFn b = Except.ok bs) (path method2 path2 : String) :
    (Request.post mFn send dec r path).2.1.bodyBytes = bs ∧
    ∀ req, Event.send req ∈
        (Request.doCall send dec (Request.post mFn send dec r path).2.1 method2 path2).2.2 →
      req.body = bs := by
  have hstate : (Request.post mFn send dec r path).2.1.bodyBytes = bs := by
    have h1 : (Request.post mFn send dec r path).2.1 =
        (Request.doCall send dec { r with bodyBytes := bs } "POST" path).2.1 := by
      simp [Request.post, Request.sendJSON, hb, hm]
    rw [h1]
    exact (doCall_state send dec { r with bodyBytes := bs } "POST" path).2.2.2
  refine ⟨hstate, ?_⟩
  intro req hmem
  have := doCall_send_body send dec (Request.post mFn send dec r path).2.1 method2 path2 req hmem
  rwa [hstate] at this

/-- Witness for C10: after a concrete `Post` whose marshaller returns
two bytes, the builder's stored byte body is exactly those bytes. -/
theorem c10_witness :
    (Request.post mOk sendOk decOk (Request.withJSONBody (Request.new base2 "a") ()) "w").2.1.bodyBytes
      = [123, 125] :=
  (c10_post_bytes_persist mOk sendOk decOk (Request.withJSONBody (Request.new base2 "a") ())
    () [123, 125] rfl rfl "w" "GET" "w2").1

/-- C7: the request URL results from standard reference resolution of
the call path against the base: with base `https://api.example.com/v1/`
the relative path `widgets/42` resolves to
`https://api.example.com/v1/widgets/42`, and the absolute path
`/widgets/42` overrides the base's path. -/
theorem c7_url_reference_resolution :
    (Request.buildRequest req7a "GET" "widgets/42").map (fun req => URL.toString req.url) =
      Except.ok "https://api.example.com/v1/widgets/42" ∧
    (Request.buildRequest req7a "GET" "/widgets/42").map (fun req => req.url.path) =
      Except.ok "/widgets/42" :=
  ⟨rfl, rfl⟩

/-- C2 as claimed is false: the claim quantifies over every accumulated
multimap, but a value containing `#` — escaped by the standard encoding
and restored by the unescape step — is truncated when request
construction re-parses the URL string, so the constructed request's
query string is `k=a` while encode-then-unescape gives `k=a#b`. -/
theorem c2_counterexample :
    ¬ (∀ (r : Request Unit Unit) (method path : String) (req : HttpRequest),
        Request.buildRequest r method path = Except.ok req →
        Except.ok req.url.rawQuery = queryUnescape (valuesEncode r.queryParams)) := by
  intro h
  have h2 := h r2 "GET" "" req2 rfl
  have h3 : Except.ok ("k=a" : String) = Except.ok ("k=a#b" : String) := h2
  exact absurd (Except.ok.inj h3) (by decide)

/-- C2 (amended): the query string assigned to the resolved URL equals
the percent-unescape of the standard encoding of the accumulated
multimap; the request object is then assembled by re-parsing the URL's
serialisation, which preserves that string in the benign concrete case
below (no `#` in the unescaped result) but may truncate it otherwise. -/
theorem c2_amended_query_assignment {β τ : Type} (r : Request β τ) (path : String) (u : URL)
    (h : Request.resolvedURL r path = Except.ok u) :
    queryUnescape (valuesEncode r.queryParams) = Except.ok u.rawQuery ∧
    (Request.buildRequest r2b "GET" "").map (fun req => req.url.rawQuery) =
      queryUnescape (valuesEncode r2b.queryParams) := by
  constructor
  · unfold Request.resolvedURL at h
    split at h
    · cases h
    · split at h
      · cases h
      · rename_i q hq
        cases h
        exact hq.trans rfl
  · rfl

/-- Witness for the amended C2 at a concrete builder: the multimap
`[("k", ["v w"])]` encodes to `k=v+w`, unescapes to `k=v w`, and that is
exactly the resolved URL's query string. -/
theorem c2_amended_witness :
    queryUnescape (valuesEncode r2b.queryParams) = Except.ok "k=v w" :=
  ((c2_amended_query_assignment r2b "" u2b rfl).1).trans rfl

end Requests
